import Mathlib

set_option maxRecDepth 10000

/-!
# Verification of the todo task store (`internal/models/todo.go`)

A shallow embedding of the task-collection store of the `todo` web
application.  The store keeps its rows in a SQLite table

    id INTEGER PRIMARY KEY AUTOINCREMENT,
    text TEXT NOT NULL,
    completed BOOLEAN NOT NULL DEFAULT 0,
    created_at DATETIME DEFAULT CURRENT_TIMESTAMP

We model the table as a list of rows in rowid (insertion) order together
with the AUTOINCREMENT sequence (the largest id ever issued; SQLite never
reuses an AUTOINCREMENT rowid).  Go strings are modelled as lists of
Unicode scalar values; Go's `len` counts UTF-8 bytes, so the length check
of `validateTodoText` is modelled by the summed UTF-8 encoding size.
Timestamps are abstract integers: `time.Now()` is passed in as an explicit
`now` argument.  Errors are the Go error strings; a mutating operation
returns its updated table state together with an `Option String`
(`none` = nil error), and `AddTodo` returns the state and an
`Except String Todo`, mirroring Go's `(Todo, error)` convention.
-/

/-- Go's `unicode.IsSpace`: the White_Space code points, as trimmed by
`strings.TrimSpace`. -/
def goIsSpace (c : Char) : Bool :=
  let n := c.toNat
  n == 0x09 || n == 0x0A || n == 0x0B || n == 0x0C || n == 0x0D || n == 0x20 ||
  n == 0x85 || n == 0xA0 || n == 0x1680 ||
  (0x2000 <= n && n <= 0x200A) ||
  n == 0x2028 || n == 0x2029 || n == 0x202F || n == 0x205F || n == 0x3000

/-- Go `strings.TrimSpace`: drop leading and trailing white space. -/
def trimSpace (s : List Char) : List Char :=
  ((s.dropWhile goIsSpace).reverse.dropWhile goIsSpace).reverse

/-- Number of bytes of the UTF-8 encoding of a scalar value: Go's `len`
on a string sums these. -/
def charUtf8Size (c : Char) : Nat :=
  if c.toNat < 0x80 then 1 else if c.toNat < 0x800 then 2
  else if c.toNat < 0x10000 then 3 else 4

/-- Go `len(s)` for a string: UTF-8 byte length. -/
def utf8Len (s : List Char) : Nat := (s.map charUtf8Size).sum

/-- The `Todo` struct. -/
structure Todo where
  id : Int
  text : List Char
  completed : Bool
  createdAt : Int
deriving DecidableEq, Repr

/-- The state of the `todos` table behind a `TodoStore`: the rows in
rowid (insertion) order, and the AUTOINCREMENT sequence `seq`, the largest
id ever issued (0 before any insert). -/
structure TodoStore where
  rows : List Todo
  seq : Int
deriving DecidableEq, Repr

/-- A freshly created store: empty table, sequence at 0 (first id is 1). -/
def initStore : TodoStore := ⟨[], 0⟩

/-- `validateTodoText`: trims, rejects empty text, rejects text longer
than 500 bytes.  `some e` is the returned error, `none` is nil. -/
def validateTodoText (text : List Char) : Option String :=
  if trimSpace text = [] then some "todo text cannot be empty"
  else if 500 < utf8Len (trimSpace text) then some "todo text cannot exceed 500 characters"
  else none

/-- `AddTodo`: validate, trim, INSERT; the new row gets the next
AUTOINCREMENT id `seq + 1`, `completed = false` and `created_at = now`,
and `LastInsertId` populates the returned `Todo`. -/
def AddTodo (ts : TodoStore) (text : List Char) (now : Int) :
    TodoStore × Except String Todo :=
  match validateTodoText text with
  | some e => (ts, .error e)
  | none =>
    (⟨ts.rows ++ [⟨ts.seq + 1, trimSpace text, false, now⟩], ts.seq + 1⟩,
     .ok ⟨ts.seq + 1, trimSpace text, false, now⟩)

/-- Effect of `UPDATE todos SET completed = NOT completed WHERE id = ?`
on one row. -/
def toggleRow (id : Int) (t : Todo) : Todo :=
  if t.id = id then { t with completed := !t.completed } else t

/-- `RowsAffected` of an UPDATE/DELETE with `WHERE id = ?`: the number of
rows matching the id. -/
def matchCount (rows : List Todo) (id : Int) : Nat :=
  (rows.filter (fun t => t.id == id)).length

/-- `ToggleTodo`: reject non-positive ids before touching storage, run the
UPDATE, report "todo not found" when no row was affected. -/
def ToggleTodo (ts : TodoStore) (id : Int) : TodoStore × Option String :=
  if id ≤ 0 then (ts, some "invalid todo ID")
  else if matchCount ts.rows id = 0 then
    ({ ts with rows := ts.rows.map (toggleRow id) }, some "todo not found")
  else ({ ts with rows := ts.rows.map (toggleRow id) }, none)

/-- `DeleteTodo`: reject non-positive ids before touching storage, run the
DELETE, report "todo not found" when no row was affected. -/
def DeleteTodo (ts : TodoStore) (id : Int) : TodoStore × Option String :=
  if id ≤ 0 then (ts, some "invalid todo ID")
  else if matchCount ts.rows id = 0 then
    ({ ts with rows := ts.rows.filter (fun t => !(t.id == id)) }, some "todo not found")
  else ({ ts with rows := ts.rows.filter (fun t => !(t.id == id)) }, none)

/-- Insert a row into a list already sorted by descending `created_at`,
keeping it before the first row whose timestamp is not larger.  This is
the tie behaviour of `ORDER BY created_at DESC` with no secondary sort
key over a table scanned in rowid order: rows with equal `created_at`
stay in scan (ascending rowid) order. -/
def insertDesc (t : Todo) : List Todo → List Todo
  | [] => [t]
  | x :: xs => if x.createdAt ≤ t.createdAt then t :: x :: xs else x :: insertDesc t xs

/-- `ORDER BY created_at DESC` over the rows in rowid order. -/
def sortByCreatedDesc : List Todo → List Todo
  | [] => []
  | x :: xs => insertDesc x (sortByCreatedDesc xs)

/-- `GetTodos` on the happy path (every row scans correctly): the rows
ordered by descending `created_at`. -/
def GetTodos (ts : TodoStore) : List Todo := sortByCreatedDesc ts.rows

/-- `GetTodos` with its storage interactions explicit: `queryErr` is a
failure of `db.Query`, `scan` the per-row outcome of `rows.Scan` (the loop
logs a scan failure and `continue`s, dropping the row), `iterErr` the
outcome of `rows.Err()` checked after the loop. -/
def GetTodosWith (queryErr : Option String) (scan : Todo → Except String Todo)
    (iterErr : Option String) (ts : TodoStore) : Except String (List Todo) :=
  match queryErr with
  | some e => .error e
  | none =>
    let todos := (sortByCreatedDesc ts.rows).filterMap (fun r => (scan r).toOption)
    match iterErr with
    | some e => .error e
    | none => .ok todos

/-- One client operation against the store. -/
inductive Op where
  | add (text : List Char) (now : Int)
  | toggle (id : Int)
  | delete (id : Int)
deriving DecidableEq, Repr

/-- The observable outcome of one operation. -/
inductive Event where
  | added (t : Todo)
  | addRejected (e : String)
  | toggled (id : Int)
  | toggleFailed (id : Int) (e : String)
  | deleted (id : Int)
  | deleteFailed (id : Int) (e : String)
deriving DecidableEq, Repr

/-- Apply one operation, recording its outcome. -/
def applyOp (ts : TodoStore) : Op → TodoStore × Event
  | .add text now =>
    ((AddTodo ts text now).1,
      match (AddTodo ts text now).2 with
      | .ok t => .added t
      | .error e => .addRejected e)
  | .toggle id =>
    ((ToggleTodo ts id).1,
      match (ToggleTodo ts id).2 with
      | none => .toggled id
      | some e => .toggleFailed id e)
  | .delete id =>
    ((DeleteTodo ts id).1,
      match (DeleteTodo ts id).2 with
      | none => .deleted id
      | some e => .deleteFailed id e)

/-- Run a sequence of operations, collecting the outcomes. -/
def runOps (ts : TodoStore) : List Op → TodoStore × List Event
  | [] => (ts, [])
  | op :: ops =>
    let r := applyOp ts op
    let rest := runOps r.1 ops
    (rest.1, r.2 :: rest.2)

/-- Id returned by a successful Add outcome. -/
def addedId : Event → Option Int
  | .added t => some t.id
  | _ => none

/-- The ids returned by the successful Add calls of a trace, in order. -/
def addedIds (evts : List Event) : List Int := evts.filterMap addedId

/-- Largest element of a list of issued ids (0 when none was issued). -/
def maxIds (l : List Int) : Int := l.foldr max 0

/-- The text of a stored row is well formed: trimmed, non-empty, at most
500 UTF-8 bytes. -/
def TextOk (s : List Char) : Prop := trimSpace s = s ∧ s ≠ [] ∧ utf8Len s ≤ 500

/-- Invariant of every reachable table state: non-negative sequence, rows
in strictly increasing id (rowid) order, every id positive and no larger
than the sequence, every text well formed. -/
def StoreInv (ts : TodoStore) : Prop :=
  0 ≤ ts.seq ∧
  ts.rows.Pairwise (fun a b => a.id < b.id) ∧
  ∀ t ∈ ts.rows, 0 < t.id ∧ t.id ≤ ts.seq ∧ TextOk t.text

/-! ## Basic lemmas about trimming -/

theorem dropWhile_dropWhile (p : Char → Bool) (l : List Char) :
    (l.dropWhile p).dropWhile p = l.dropWhile p := by
  induction l with
  | nil => rfl
  | cons a l ih =>
    by_cases h : p a
    · simp [List.dropWhile_cons, h, ih]
    · simp [List.dropWhile_cons, h]

theorem dropWhile_suffix_decomp (p : Char → Bool) (l : List Char) :
    ∃ q, q ++ l.dropWhile p = l := by
  induction l with
  | nil => exact ⟨[], rfl⟩
  | cons a l ih =>
    by_cases h : p a
    · obtain ⟨q, hq⟩ := ih
      exact ⟨a :: q, by simp [List.dropWhile_cons, h, hq]⟩
    · exact ⟨[], by simp [List.dropWhile_cons, h]⟩

theorem dropWhile_length_le (p : Char → Bool) (l : List Char) :
    (l.dropWhile p).length ≤ l.length := by
  obtain ⟨q, hq⟩ := dropWhile_suffix_decomp p l
  have hlen := congrArg List.length hq
  simp only [List.length_append] at hlen
  omega

theorem dropWhile_eq_self_of_prefix (p : Char → Bool) (u t : List Char)
    (hpre : ∃ r, u ++ r = t) (ht : t.dropWhile p = t) : u.dropWhile p = u := by
  obtain ⟨r, hr⟩ := hpre
  cases u with
  | nil => rfl
  | cons a u' =>
    have ha : ¬ p a := by
      intro hp
      subst hr
      rw [List.cons_append, List.dropWhile_cons, if_pos hp] at ht
      have hlen := congrArg List.length ht
      have hle := dropWhile_length_le p (u' ++ r)
      simp only [List.length_cons, List.length_append] at hlen hle
      omega
    simp [List.dropWhile_cons, ha]

theorem trimSpace_idem (s : List Char) : trimSpace (trimSpace s) = trimSpace s := by
  unfold trimSpace
  have ht_self : (s.dropWhile goIsSpace).dropWhile goIsSpace = s.dropWhile goIsSpace :=
    dropWhile_dropWhile goIsSpace s
  have hu_pre : ∃ r,
      (((s.dropWhile goIsSpace).reverse.dropWhile goIsSpace).reverse) ++ r
        = s.dropWhile goIsSpace := by
    obtain ⟨q, hq⟩ := dropWhile_suffix_decomp goIsSpace (s.dropWhile goIsSpace).reverse
    exact ⟨q.reverse, by rw [← List.reverse_append, hq, List.reverse_reverse]⟩
  have hu_drop := dropWhile_eq_self_of_prefix goIsSpace _ _ hu_pre ht_self
  rw [hu_drop, List.reverse_reverse, dropWhile_dropWhile]

/-! ## Characterizations of the operations -/

theorem validateTodoText_none (text : List Char) :
    validateTodoText text = none ↔
      trimSpace text ≠ [] ∧ utf8Len (trimSpace text) ≤ 500 := by
  unfold validateTodoText
  split_ifs with h1 h2 <;> simp_all

theorem AddTodo_ok {ts : TodoStore} {text : List Char} {now : Int}
    {ts' : TodoStore} {todo : Todo}
    (h : AddTodo ts text now = (ts', Except.ok todo)) :
    validateTodoText text = none ∧
    todo = ⟨ts.seq + 1, trimSpace text, false, now⟩ ∧
    ts' = ⟨ts.rows ++ [todo], ts.seq + 1⟩ := by
  unfold AddTodo at h
  cases hv : validateTodoText text with
  | some e => rw [hv] at h; simp at h
  | none =>
    rw [hv] at h
    simp only [Prod.mk.injEq, Except.ok.injEq] at h
    obtain ⟨h1, h2⟩ := h
    refine ⟨rfl, h2.symm, ?_⟩
    rw [← h1, ← h2]

theorem matchCount_ne_zero {rows : List Todo} {id : Int} :
    matchCount rows id ≠ 0 ↔ ∃ t ∈ rows, t.id = id := by
  unfold matchCount
  rw [Ne, List.length_eq_zero]
  simp [List.filter_eq_nil_iff]

theorem toggleRow_id (id : Int) (t : Todo) : (toggleRow id t).id = t.id := by
  unfold toggleRow
  split <;> rfl

theorem matchCount_map_toggleRow (rows : List Todo) (i id : Int) :
    matchCount (rows.map (toggleRow i)) id = matchCount rows id := by
  unfold matchCount
  rw [List.filter_map, List.length_map]
  congr 1
  apply List.filter_congr
  intro t _
  simp [toggleRow_id]

theorem map_toggleRow_eq_self {rows : List Todo} {id : Int}
    (h : ∀ t ∈ rows, t.id ≠ id) : rows.map (toggleRow id) = rows := by
  induction rows with
  | nil => rfl
  | cons a l ih =>
    simp only [List.map_cons]
    rw [ih (fun t ht => h t (List.mem_cons_of_mem _ ht))]
    have : toggleRow id a = a := by
      unfold toggleRow
      rw [if_neg (h a (List.mem_cons_self _ _))]
    rw [this]

theorem filter_ne_eq_self {rows : List Todo} {id : Int}
    (h : ∀ t ∈ rows, t.id ≠ id) : rows.filter (fun t => !(t.id == id)) = rows := by
  apply List.filter_eq_self.mpr
  intro a ha
  simpa using h a ha

/-- C5: `Toggle(id)` and `Delete(id)` with `id ≤ 0` fail immediately with
the invalid-id error "invalid todo ID", before any lookup and without
touching storage: the returned state is exactly the input state. -/
theorem nonpositive_id_invalid (ts : TodoStore) (id : Int) (h : id ≤ 0) :
    ToggleTodo ts id = (ts, some "invalid todo ID") ∧
    DeleteTodo ts id = (ts, some "invalid todo ID") := by
  unfold ToggleTodo DeleteTodo
  rw [if_pos h, if_pos h]
  exact ⟨rfl, rfl⟩

theorem nonpositive_id_invalid_witness :
    ToggleTodo initStore 0 = (initStore, some "invalid todo ID") ∧
    DeleteTodo initStore (-1) = (initStore, some "invalid todo ID") :=
  ⟨(nonpositive_id_invalid initStore 0 (by decide)).1,
   (nonpositive_id_invalid initStore (-1) (by decide)).2⟩

/-- C6: for a positive id matching no row, `Toggle(id)` and `Delete(id)`
both fail with the not-found error "todo not found" and the collection is
unchanged: the returned state is exactly the input state. -/
theorem missing_id_not_found (ts : TodoStore) (id : Int) (hpos : 0 < id)
    (habs : ∀ t ∈ ts.rows, t.id ≠ id) :
    ToggleTodo ts id = (ts, some "todo not found") ∧
    DeleteTodo ts id = (ts, some "todo not found") := by
  have hmc : matchCount ts.rows id = 0 := by
    by_contra h
    obtain ⟨t, ht, hid⟩ := matchCount_ne_zero.mp h
    exact habs t ht hid
  have hneg : ¬ id ≤ 0 := by omega
  constructor
  · unfold ToggleTodo
    rw [if_neg hneg, if_pos hmc, map_toggleRow_eq_self habs]
  · unfold DeleteTodo
    rw [if_neg hneg, if_pos hmc, filter_ne_eq_self habs]

theorem missing_id_not_found_witness :
    ToggleTodo initStore 99999 = (initStore, some "todo not found") ∧
    DeleteTodo initStore 99999 = (initStore, some "todo not found") :=
  missing_id_not_found initStore 99999 (by decide) (by decide)

/-! ## Ordering of `GetTodos` -/

/-- The order in which `GetTodos` actually lists two rows of a reachable
table: descending `created_at`, rows with equal `created_at` in ascending
id (insertion) order. -/
def listedBefore (a b : Todo) : Prop :=
  b.createdAt ≤ a.createdAt ∧ (a.createdAt = b.createdAt → a.id < b.id)

/-- The ordering claimed by the spec: descending `created_at` with ties
broken by descending id. -/
def specOrder (a b : Todo) : Prop :=
  b.createdAt < a.createdAt ∨ (a.createdAt = b.createdAt ∧ b.id < a.id)

instance : DecidableRel specOrder := fun a b => by
  unfold specOrder
  infer_instance

theorem insertDesc_perm (t : Todo) (l : List Todo) :
    (insertDesc t l).Perm (t :: l) := by
  induction l with
  | nil => exact List.Perm.refl _
  | cons a l ih =>
    unfold insertDesc
    split
    · exact List.Perm.refl _
    · exact (ih.cons a).trans (List.Perm.swap t a l)

theorem sortByCreatedDesc_perm (l : List Todo) : (sortByCreatedDesc l).Perm l := by
  induction l with
  | nil => exact List.Perm.refl _
  | cons a l ih => exact (insertDesc_perm a _).trans (ih.cons a)

theorem insertDesc_pairwise {t : Todo} {l : List Todo}
    (hl : l.Pairwise listedBefore) (hid : ∀ y ∈ l, t.id < y.id) :
    (insertDesc t l).Pairwise listedBefore := by
  induction l with
  | nil => simp [insertDesc, listedBefore]
  | cons x xs ih =>
    rw [List.pairwise_cons] at hl
    obtain ⟨hx, hxs⟩ := hl
    unfold insertDesc
    split
    · rename_i hle
      apply List.Pairwise.cons
      · intro y hy
        rcases List.mem_cons.mp hy with rfl | hy'
        · exact ⟨hle, fun _ => hid y (List.mem_cons_self _ _)⟩
        · exact ⟨le_trans (hx y hy').1 hle,
            fun _ => hid y (List.mem_cons_of_mem _ hy')⟩
      · exact List.Pairwise.cons hx hxs
    · rename_i hgt
      push_neg at hgt
      apply List.Pairwise.cons
      · intro z hz
        rcases List.mem_cons.mp ((insertDesc_perm t xs).mem_iff.mp hz) with rfl | hz'
        · exact ⟨le_of_lt hgt, fun h => absurd h (by omega)⟩
        · exact hx z hz'
      · exact ih hxs (fun y hy => hid y (List.mem_cons_of_mem _ hy))

theorem sortByCreatedDesc_pairwise {l : List Todo}
    (h : l.Pairwise (fun a b => a.id < b.id)) :
    (sortByCreatedDesc l).Pairwise listedBefore := by
  induction l with
  | nil => exact List.Pairwise.nil
  | cons a l ih =>
    rw [List.pairwise_cons] at h
    apply insertDesc_pairwise (ih h.2)
    intro y hy
    exact h.1 y ((sortByCreatedDesc_perm l).mem_iff.mp hy)

/-- C3, counterexample: two tasks added in the same `created_at` instant
are listed by `GetTodos` in ascending id order (`[id 1, id 2]`), so the
output of `List()` on this reachable store does not satisfy the claimed
descending-id tie-break (`ORDER BY created_at DESC` has no secondary sort
key). -/
theorem getTodos_equal_timestamps_ascending_id :
    GetTodos (runOps initStore [Op.add ['a'] 5, Op.add ['b'] 5]).1 =
      [⟨1, ['a'], false, 5⟩, ⟨2, ['b'], false, 5⟩] ∧
    ¬ (GetTodos (runOps initStore [Op.add ['a'] 5, Op.add ['b'] 5]).1).Pairwise specOrder := by
  constructor
  · rfl
  · decide

/-- C3 (amended): for every store state whose rows are in insertion
(ascending id) order — an invariant of every reachable state — `List()`
returns a permutation of the collection ordered by descending
`created_at`; tasks with identical `created_at` timestamps appear in
ascending id order (their insertion order), not descending id. -/
theorem getTodos_sorted_desc_createdAt (ts : TodoStore)
    (h : ts.rows.Pairwise (fun a b => a.id < b.id)) :
    (GetTodos ts).Perm ts.rows ∧ (GetTodos ts).Pairwise listedBefore :=
  ⟨sortByCreatedDesc_perm ts.rows, sortByCreatedDesc_pairwise h⟩

theorem getTodos_sorted_desc_createdAt_witness :
    (GetTodos ⟨[⟨1, ['a'], false, 5⟩, ⟨2, ['b'], false, 7⟩], 2⟩).Perm
      [⟨1, ['a'], false, 5⟩, ⟨2, ['b'], false, 7⟩] ∧
    (GetTodos ⟨[⟨1, ['a'], false, 5⟩, ⟨2, ['b'], false, 7⟩], 2⟩).Pairwise listedBefore :=
  getTodos_sorted_desc_createdAt ⟨[⟨1, ['a'], false, 5⟩, ⟨2, ['b'], false, 7⟩], 2⟩ (by decide)

/-! ## Validation boundary (Add) -/

/-- C1, counterexample: a text of exactly 500 characters after trimming
is rejected when the characters are not ASCII, because Go's `len` counts
UTF-8 bytes: 500 copies of U+00E9 (2 bytes each) post-trim are 1000
bytes, and `AddTodo` fails with the text-too-long error instead of
succeeding as the claim states. -/
theorem addTodo_500_chars_rejected :
    (trimSpace (List.replicate 500 'é')).length = 500 ∧
    AddTodo initStore (List.replicate 500 'é') 0 =
      (initStore, Except.error "todo text cannot exceed 500 characters") := by
  constructor
  · decide
  · rfl

/-- C1 (amended): the validation boundary is 500 UTF-8 bytes of the
post-trim text (Go's `len`), not 500 characters: any text whose post-trim
byte length is at most 500 (and non-empty) is accepted and inserted; a
post-trim byte length over 500 fails with the text-too-long error; an
empty or all-whitespace text fails with the empty-text error.  In all
failure cases the store is unchanged. -/
theorem addTodo_validation_boundary (ts : TodoStore) (text : List Char) (now : Int) :
    (trimSpace text ≠ [] → utf8Len (trimSpace text) ≤ 500 →
      AddTodo ts text now =
        (⟨ts.rows ++ [⟨ts.seq + 1, trimSpace text, false, now⟩], ts.seq + 1⟩,
         Except.ok ⟨ts.seq + 1, trimSpace text, false, now⟩)) ∧
    (500 < utf8Len (trimSpace text) →
      AddTodo ts text now = (ts, Except.error "todo text cannot exceed 500 characters")) ∧
    (trimSpace text = [] →
      AddTodo ts text now = (ts, Except.error "todo text cannot be empty")) := by
  unfold AddTodo validateTodoText
  refine ⟨fun h1 h2 => ?_, fun h => ?_, fun h => ?_⟩
  · rw [if_neg h1, if_neg (by omega)]
  · have hne : ¬ trimSpace text = [] := by
      intro he
      rw [he] at h
      simp [utf8Len] at h
    rw [if_neg hne, if_pos h]
  · rw [if_pos h]

theorem addTodo_validation_boundary_witness :
    AddTodo initStore (List.replicate 500 'a') 0 =
      (⟨[⟨1, trimSpace (List.replicate 500 'a'), false, 0⟩], 1⟩,
       Except.ok ⟨1, trimSpace (List.replicate 500 'a'), false, 0⟩) ∧
    AddTodo initStore (List.replicate 501 'a') 0 =
      (initStore, Except.error "todo text cannot exceed 500 characters") ∧
    AddTodo initStore [' ', ' '] 0 = (initStore, Except.error "todo text cannot be empty") :=
  ⟨(addTodo_validation_boundary initStore (List.replicate 500 'a') 0).1
      (by decide) (by decide),
   (addTodo_validation_boundary initStore (List.replicate 501 'a') 0).2.1 (by decide),
   (addTodo_validation_boundary initStore [' ', ' '] 0).2.2 (by decide)⟩

/-! ## Toggle involution and frame conditions -/

theorem toggleRow_involutive (id : Int) (t : Todo) :
    toggleRow id (toggleRow id t) = t := by
  by_cases h : t.id = id
  · have h1 : toggleRow id t = { t with completed := !t.completed } := by
      unfold toggleRow
      rw [if_pos h]
    rw [h1]
    have h2 : ({ t with completed := !t.completed } : Todo).id = id := h
    unfold toggleRow
    rw [if_pos h2]
    show ({ t with completed := !(!t.completed) } : Todo) = t
    rw [Bool.not_not]
  · have h1 : toggleRow id t = t := by
      unfold toggleRow
      rw [if_neg h]
    rw [h1, h1]

theorem map_toggleRow_toggleRow (rows : List Todo) (i : Int) :
    (rows.map (toggleRow i)).map (toggleRow i) = rows := by
  induction rows with
  | nil => rfl
  | cons a l ih => simp only [List.map_cons, ih, toggleRow_involutive]

/-- C7: toggling an existing task (positive id, present in the store)
succeeds; the toggled task's `completed` flag is flipped in place (all
other fields kept); and toggling the same id again succeeds and restores
the store — in particular that task's `completed` flag — to exactly its
state before the first toggle. -/
theorem toggle_involution (ts : TodoStore) (id : Int) (t : Todo)
    (hmem : t ∈ ts.rows) (hid : t.id = id) (hpos : 0 < id) :
    (ToggleTodo ts id).2 = none ∧
    { t with completed := !t.completed } ∈ (ToggleTodo ts id).1.rows ∧
    ToggleTodo (ToggleTodo ts id).1 id = (ts, none) := by
  have hneg : ¬ id ≤ 0 := by omega
  have hmc : matchCount ts.rows id ≠ 0 := matchCount_ne_zero.mpr ⟨t, hmem, hid⟩
  have hfst : ToggleTodo ts id = (⟨ts.rows.map (toggleRow id), ts.seq⟩, none) := by
    unfold ToggleTodo
    rw [if_neg hneg, if_neg hmc]
  refine ⟨by rw [hfst], ?_, ?_⟩
  · rw [hfst]
    have hflip : toggleRow id t = { t with completed := !t.completed } := by
      unfold toggleRow
      rw [if_pos hid]
    exact hflip ▸ List.mem_map_of_mem _ hmem
  · rw [hfst]
    unfold ToggleTodo
    rw [if_neg hneg]
    have hmc2 : ¬ matchCount ((⟨ts.rows.map (toggleRow id), ts.seq⟩ : TodoStore)).rows id = 0 := by
      show ¬ matchCount (ts.rows.map (toggleRow id)) id = 0
      rw [matchCount_map_toggleRow]
      exact hmc
    rw [if_neg hmc2]
    show (⟨(ts.rows.map (toggleRow id)).map (toggleRow id), ts.seq⟩, (none : Option String)) = (ts, none)
    rw [map_toggleRow_toggleRow]

theorem toggle_involution_witness :
    (ToggleTodo ⟨[⟨1, ['a'], false, 0⟩], 1⟩ 1).2 = none ∧
    ({ (⟨1, ['a'], false, 0⟩ : Todo) with completed := !false } : Todo) ∈
      (ToggleTodo ⟨[⟨1, ['a'], false, 0⟩], 1⟩ 1).1.rows ∧
    ToggleTodo (ToggleTodo ⟨[⟨1, ['a'], false, 0⟩], 1⟩ 1).1 1 =
      (⟨[⟨1, ['a'], false, 0⟩], 1⟩, none) :=
  toggle_involution ⟨[⟨1, ['a'], false, 0⟩], 1⟩ 1 ⟨1, ['a'], false, 0⟩
    (by decide) rfl (by decide)

theorem ToggleTodo_success_state {ts : TodoStore} {id : Int}
    (h : (ToggleTodo ts id).2 = none) :
    (ToggleTodo ts id).1 = ⟨ts.rows.map (toggleRow id), ts.seq⟩ := by
  unfold ToggleTodo at h ⊢
  split_ifs at h ⊢
  simp_all

theorem DeleteTodo_success_state {ts : TodoStore} {id : Int}
    (h : (DeleteTodo ts id).2 = none) :
    (DeleteTodo ts id).1 = ⟨ts.rows.filter (fun t => !(t.id == id)), ts.seq⟩ := by
  unfold DeleteTodo at h ⊢
  split_ifs at h ⊢
  simp_all

/-- C9: frame conditions of the three mutations.  A successful Toggle(id)
keeps every row whose id differs, and replaces the matching row by the
same row with only `completed` flipped; a successful Delete(id) keeps
exactly the rows whose id differs (and every row of the result was
already present); a successful Add keeps every pre-existing row. -/
theorem mutation_frame_conditions (ts : TodoStore) (id : Int) (text : List Char) (now : Int) :
    ((ToggleTodo ts id).2 = none →
      ∀ t ∈ ts.rows,
        (t.id ≠ id → t ∈ (ToggleTodo ts id).1.rows) ∧
        (t.id = id → { t with completed := !t.completed } ∈ (ToggleTodo ts id).1.rows)) ∧
    ((DeleteTodo ts id).2 = none →
      (∀ t ∈ ts.rows, t.id ≠ id → t ∈ (DeleteTodo ts id).1.rows) ∧
      (∀ t ∈ (DeleteTodo ts id).1.rows, t ∈ ts.rows ∧ t.id ≠ id)) ∧
    (∀ ts' todo, AddTodo ts text now = (ts', Except.ok todo) →
      ∀ t ∈ ts.rows, t ∈ ts'.rows) := by
  refine ⟨fun hsucc t hmem => ?_, fun hsucc => ?_, fun ts' todo hadd t hmem => ?_⟩
  · rw [ToggleTodo_success_state hsucc]
    constructor
    · intro hne
      have : toggleRow id t = t := by
        unfold toggleRow
        rw [if_neg hne]
      exact this ▸ List.mem_map_of_mem _ hmem
    · intro heq
      have : toggleRow id t = { t with completed := !t.completed } := by
        unfold toggleRow
        rw [if_pos heq]
      exact this ▸ List.mem_map_of_mem _ hmem
  · rw [DeleteTodo_success_state hsucc]
    constructor
    · intro t hmem hne
      refine List.mem_filter.mpr ⟨hmem, ?_⟩
      simpa using hne
    · intro t hmem
      have := List.mem_filter.mp hmem
      refine ⟨this.1, ?_⟩
      have h2 := this.2
      simpa using h2
  · obtain ⟨-, -, hts'⟩ := AddTodo_ok hadd
    rw [hts']
    exact List.mem_append_left _ hmem

theorem mutation_frame_conditions_witness :
    ((⟨2, ['b'], false, 0⟩ : Todo) ∈
      (ToggleTodo ⟨[⟨1, ['a'], false, 0⟩, ⟨2, ['b'], false, 0⟩], 2⟩ 1).1.rows) ∧
    ((⟨2, ['b'], false, 0⟩ : Todo) ∈
      (DeleteTodo ⟨[⟨1, ['a'], false, 0⟩, ⟨2, ['b'], false, 0⟩], 2⟩ 1).1.rows) ∧
    ((⟨1, ['a'], false, 0⟩ : Todo) ∈
      (⟨[⟨1, ['a'], false, 0⟩, ⟨2, ['c'], false, 0⟩], 2⟩ : TodoStore).rows) :=
  ⟨((mutation_frame_conditions ⟨[⟨1, ['a'], false, 0⟩, ⟨2, ['b'], false, 0⟩], 2⟩ 1 ['c'] 0).1
      (by rfl) ⟨2, ['b'], false, 0⟩ (by decide)).1 (by decide),
   ((mutation_frame_conditions ⟨[⟨1, ['a'], false, 0⟩, ⟨2, ['b'], false, 0⟩], 2⟩ 1 ['c'] 0).2.1
      (by rfl)).1 ⟨2, ['b'], false, 0⟩ (by decide) (by decide),
   (mutation_frame_conditions ⟨[⟨1, ['a'], false, 0⟩], 1⟩ 1 ['c'] 0).2.2
      ⟨[⟨1, ['a'], false, 0⟩, ⟨2, ['c'], false, 0⟩], 2⟩ ⟨2, ['c'], false, 0⟩ (by rfl)
      ⟨1, ['a'], false, 0⟩ (by decide)⟩

/-! ## GetTodos and storage failures -/

theorem getTodosWith_happy (ts : TodoStore) :
    GetTodosWith none Except.ok none ts = Except.ok (GetTodos ts) := by
  unfold GetTodosWith GetTodos
  simp [Except.toOption]

/-- Per-row `rows.Scan` outcome that fails on the row with the given id
(for instance a row whose stored `created_at` does not parse back into a
`time.Time`). -/
def scanFailOn (bad : Int) (r : Todo) : Except String Todo :=
  if r.id = bad then .error "sql: Scan error" else .ok r

/-- C8, code bug: `GetTodos` swallows a per-row storage read failure.
On a table of two rows where scanning the row with id 1 fails, the scan
loop logs the error and `continue`s, so `GetTodos` returns a nil error
and a result list from which the affected row has silently been dropped,
instead of surfacing the storage failure to the caller as the spec
requires. -/
theorem getTodos_swallows_scan_failure :
    GetTodosWith none (scanFailOn 1) none
        ⟨[⟨1, ['a'], false, 1⟩, ⟨2, ['b'], false, 2⟩], 2⟩ =
      Except.ok [⟨2, ['b'], false, 2⟩] := by
  rfl

/-! ## Trace reasoning: the invariant, sequence monotonicity, issued ids -/

theorem TextOk_trimSpace {text : List Char} (h : validateTodoText text = none) :
    TextOk (trimSpace text) := by
  obtain ⟨h1, h2⟩ := (validateTodoText_none text).mp h
  exact ⟨trimSpace_idem text, h1, h2⟩

theorem StoreInv_initStore : StoreInv initStore :=
  ⟨le_refl 0, List.Pairwise.nil, fun t ht => absurd ht (List.not_mem_nil t)⟩

theorem StoreInv_AddTodo {ts : TodoStore} (h : StoreInv ts) (text : List Char) (now : Int) :
    StoreInv (AddTodo ts text now).1 := by
  obtain ⟨hseq, hpw, hmem⟩ := h
  unfold AddTodo
  cases hv : validateTodoText text with
  | some e => exact ⟨hseq, hpw, hmem⟩
  | none =>
    unfold StoreInv
    refine ⟨by dsimp only; omega, ?_, ?_⟩
    · dsimp only
      rw [List.pairwise_append]
      refine ⟨hpw, List.pairwise_singleton _ _, ?_⟩
      intro a ha b hb
      rw [List.mem_singleton] at hb
      subst hb
      have := (hmem a ha).2.1
      dsimp only
      omega
    · dsimp only
      intro t ht
      rcases List.mem_append.mp ht with h1 | h1
      · obtain ⟨hp, hle, htx⟩ := hmem t h1
        exact ⟨hp, by omega, htx⟩
      · rw [List.mem_singleton] at h1
        subst h1
        exact ⟨by dsimp only; omega, by dsimp only; omega, TextOk_trimSpace hv⟩

theorem toggleRow_text (id : Int) (t : Todo) : (toggleRow id t).text = t.text := by
  unfold toggleRow
  split <;> rfl

theorem StoreInv_ToggleTodo {ts : TodoStore} (h : StoreInv ts) (id : Int) :
    StoreInv (ToggleTodo ts id).1 := by
  obtain ⟨hseq, hpw, hmem⟩ := h
  unfold ToggleTodo
  split_ifs with h1 h2
  · exact ⟨hseq, hpw, hmem⟩
  all_goals
    refine ⟨hseq, ?_, ?_⟩
  all_goals
    try
      (rw [List.pairwise_map]
       exact hpw.imp (by
        intro a b hab
        rw [toggleRow_id, toggleRow_id]
        exact hab))
  all_goals
    intro t ht
    obtain ⟨u, hu, rfl⟩ := List.mem_map.mp ht
    obtain ⟨hp, hle, htx⟩ := hmem u hu
    rw [toggleRow_id, toggleRow_text]
    exact ⟨hp, hle, htx⟩

theorem StoreInv_DeleteTodo {ts : TodoStore} (h : StoreInv ts) (id : Int) :
    StoreInv (DeleteTodo ts id).1 := by
  obtain ⟨hseq, hpw, hmem⟩ := h
  unfold DeleteTodo
  split_ifs with h1 h2
  · exact ⟨hseq, hpw, hmem⟩
  all_goals
    refine ⟨hseq, hpw.sublist (List.filter_sublist _), ?_⟩
  all_goals
    intro t ht
    exact hmem t (List.mem_filter.mp ht).1

theorem StoreInv_applyOp {ts : TodoStore} (h : StoreInv ts) (op : Op) :
    StoreInv (applyOp ts op).1 := by
  cases op with
  | add text now => exact StoreInv_AddTodo h text now
  | toggle id => exact StoreInv_ToggleTodo h id
  | delete id => exact StoreInv_DeleteTodo h id

theorem runOps_cons (ts : TodoStore) (op : Op) (ops : List Op) :
    runOps ts (op :: ops) =
      ((runOps (applyOp ts op).1 ops).1,
        (applyOp ts op).2 :: (runOps (applyOp ts op).1 ops).2) := rfl

theorem StoreInv_runOps {ts : TodoStore} (h : StoreInv ts) (ops : List Op) :
    StoreInv (runOps ts ops).1 := by
  induction ops generalizing ts with
  | nil => exact h
  | cons op ops ih =>
    rw [runOps_cons]
    exact ih (StoreInv_applyOp h op)

theorem AddTodo_seq_le (ts : TodoStore) (text : List Char) (now : Int) :
    ts.seq ≤ (AddTodo ts text now).1.seq := by
  unfold AddTodo
  cases validateTodoText text with
  | some e => exact le_refl _
  | none =>
    show ts.seq ≤ ts.seq + 1
    omega

theorem ToggleTodo_seq (ts : TodoStore) (id : Int) : (ToggleTodo ts id).1.seq = ts.seq := by
  unfold ToggleTodo
  split_ifs <;> rfl

theorem DeleteTodo_seq (ts : TodoStore) (id : Int) : (DeleteTodo ts id).1.seq = ts.seq := by
  unfold DeleteTodo
  split_ifs <;> rfl

theorem applyOp_seq_le (ts : TodoStore) (op : Op) : ts.seq ≤ (applyOp ts op).1.seq := by
  cases op with
  | add text now => exact AddTodo_seq_le ts text now
  | toggle id => exact le_of_eq (ToggleTodo_seq ts id).symm
  | delete id => exact le_of_eq (DeleteTodo_seq ts id).symm

theorem runOps_seq_le (ts : TodoStore) (ops : List Op) :
    ts.seq ≤ (runOps ts ops).1.seq := by
  induction ops generalizing ts with
  | nil => exact le_refl _
  | cons op ops ih =>
    rw [runOps_cons]
    exact le_trans (applyOp_seq_le ts op) (ih _)

theorem AddTodo_snd_ok {ts : TodoStore} {text : List Char} {now : Int} {u : Todo}
    (h : (AddTodo ts text now).2 = Except.ok u) :
    u.id = ts.seq + 1 ∧ (AddTodo ts text now).1.seq = ts.seq + 1 := by
  unfold AddTodo at h ⊢
  cases hv : validateTodoText text with
  | some e =>
    rw [hv] at h
    simp at h
  | none =>
    rw [hv] at h
    simp only [Except.ok.injEq] at h
    subst h
    exact ⟨rfl, rfl⟩

theorem applyOp_added_id {ts : TodoStore} {op : Op} {u : Todo}
    (h : (applyOp ts op).2 = Event.added u) :
    u.id = ts.seq + 1 ∧ (applyOp ts op).1.seq = ts.seq + 1 := by
  cases op with
  | add text now =>
    simp only [applyOp] at h ⊢
    cases ha : (AddTodo ts text now).2 with
    | ok t =>
      rw [ha] at h
      simp only [Event.added.injEq] at h
      subst h
      exact AddTodo_snd_ok ha
    | error e =>
      rw [ha] at h
      simp at h
  | toggle i =>
    simp only [applyOp] at h
    cases ht : (ToggleTodo ts i).2 with
    | none => rw [ht] at h; simp at h
    | some e => rw [ht] at h; simp at h
  | delete i =>
    simp only [applyOp] at h
    cases hd : (DeleteTodo ts i).2 with
    | none => rw [hd] at h; simp at h
    | some e => rw [hd] at h; simp at h

theorem DeleteTodo_none_facts {ts : TodoStore} {id : Int}
    (h : (DeleteTodo ts id).2 = none) :
    0 < id ∧ ∃ t ∈ ts.rows, t.id = id := by
  unfold DeleteTodo at h
  split_ifs at h with h1 h2
  exact ⟨by omega, matchCount_ne_zero.mp h2⟩

theorem applyOp_deleted_bound {ts : TodoStore} {op : Op} {id : Int}
    (hinv : StoreInv ts) (h : (applyOp ts op).2 = Event.deleted id) :
    0 < id ∧ id ≤ ts.seq := by
  cases op with
  | add text now =>
    simp only [applyOp] at h
    cases ha : (AddTodo ts text now).2 with
    | ok t => rw [ha] at h; simp at h
    | error e => rw [ha] at h; simp at h
  | toggle i =>
    simp only [applyOp] at h
    cases ht : (ToggleTodo ts i).2 with
    | none => rw [ht] at h; simp at h
    | some e => rw [ht] at h; simp at h
  | delete i =>
    simp only [applyOp] at h
    cases hd : (DeleteTodo ts i).2 with
    | some e => rw [hd] at h; simp at h
    | none =>
      rw [hd] at h
      have hi : i = id := by simpa using h
      subst hi
      obtain ⟨hpos, t, hmem, hid⟩ := DeleteTodo_none_facts hd
      obtain ⟨h1, h2, -⟩ := hinv.2.2 t hmem
      omega

theorem mem_addedIds {evts : List Event} {i : Int} :
    i ∈ addedIds evts ↔ ∃ t, Event.added t ∈ evts ∧ t.id = i := by
  unfold addedIds
  rw [List.mem_filterMap]
  constructor
  · rintro ⟨e, he, hei⟩
    cases e <;> dsimp only [addedId] at hei
    case added t => exact ⟨t, he, Option.some.inj hei⟩
    all_goals exact absurd hei (by simp)
  · rintro ⟨t, ht, hti⟩
    refine ⟨Event.added t, ht, ?_⟩
    dsimp only [addedId]
    rw [hti]

theorem runOps_added_gt {ts : TodoStore} {ops : List Op} {t : Todo}
    (h : Event.added t ∈ (runOps ts ops).2) : ts.seq < t.id := by
  induction ops generalizing ts with
  | nil => simp [runOps] at h
  | cons op ops ih =>
    rw [runOps_cons] at h
    rcases List.mem_cons.mp h with heq | hmem
    · have := (applyOp_added_id heq.symm).1
      omega
    · have h2 := ih hmem
      have h3 := applyOp_seq_le ts op
      omega

theorem runOps_deleted_le_seq {ts : TodoStore} {ops : List Op} {id : Int}
    (hinv : StoreInv ts) (h : Event.deleted id ∈ (runOps ts ops).2) :
    id ≤ (runOps ts ops).1.seq := by
  induction ops generalizing ts with
  | nil => simp [runOps] at h
  | cons op ops ih =>
    rw [runOps_cons] at h
    show id ≤ (runOps (applyOp ts op).1 ops).1.seq
    rcases List.mem_cons.mp h with heq | hmem
    · have hb := applyOp_deleted_bound hinv heq.symm
      have h3 := applyOp_seq_le ts op
      have h4 := runOps_seq_le (applyOp ts op).1 ops
      omega
    · exact ih (StoreInv_applyOp hinv op) hmem

theorem addedIds_pairwise_lt (ts : TodoStore) (ops : List Op) :
    (addedIds (runOps ts ops).2).Pairwise (fun a b => a < b) := by
  induction ops generalizing ts with
  | nil => exact List.Pairwise.nil
  | cons op ops ih =>
    rw [runOps_cons]
    unfold addedIds
    rw [List.filterMap_cons]
    cases he : (applyOp ts op).2 with
    | added u =>
      dsimp only [addedId]
      apply List.Pairwise.cons
      · intro j hj
        obtain ⟨t, hmem, hti⟩ := mem_addedIds.mp hj
        have hgt : (applyOp ts op).1.seq < t.id := runOps_added_gt hmem
        have hu := applyOp_added_id he
        omega
      · exact ih _
    | addRejected e => dsimp only [addedId]; exact ih _
    | toggled i => dsimp only [addedId]; exact ih _
    | toggleFailed i e => dsimp only [addedId]; exact ih _
    | deleted i => dsimp only [addedId]; exact ih _
    | deleteFailed i e => dsimp only [addedId]; exact ih _

/-- C2: along any trace of operations from a fresh store, the ids
returned by successful Add calls are pairwise distinct; and once a
Delete(id) has succeeded (in the trace prefix `pre`), no later successful
Add (in the continuation `post`) ever returns that id again — the
AUTOINCREMENT sequence only grows, so every later Add id is strictly
larger. -/
theorem add_ids_distinct_and_never_reused (pre post : List Op) :
    (addedIds (runOps initStore (pre ++ post)).2).Pairwise (fun a b => a ≠ b) ∧
    (∀ id, Event.deleted id ∈ (runOps initStore pre).2 →
      ∀ id', id' ∈ addedIds (runOps (runOps initStore pre).1 post).2 → id' ≠ id) := by
  constructor
  · exact (addedIds_pairwise_lt initStore (pre ++ post)).imp (fun h => ne_of_lt h)
  · intro id hdel id' hadd
    have h1 : id ≤ (runOps initStore pre).1.seq :=
      runOps_deleted_le_seq StoreInv_initStore hdel
    obtain ⟨t, ht, hti⟩ := mem_addedIds.mp hadd
    have h2 := runOps_added_gt ht
    omega

theorem add_ids_distinct_and_never_reused_witness : (2 : Int) ≠ 1 :=
  (add_ids_distinct_and_never_reused [Op.add ['a'] 0, Op.delete 1] [Op.add ['b'] 0]).2
    1 (by decide) 2 (by decide)

/-! ## Add postcondition: next id, visibility -/

theorem maxIds_cons (a : Int) (l : List Int) : maxIds (a :: l) = max a (maxIds l) := rfl

theorem maxIds_nonneg (l : List Int) : 0 ≤ maxIds l := by
  induction l with
  | nil => exact le_refl 0
  | cons a l ih =>
    rw [maxIds_cons]
    exact le_trans ih (le_max_right a (maxIds l))

theorem runOps_seq_eq_max (ts : TodoStore) (ops : List Op) (h : 0 ≤ ts.seq) :
    (runOps ts ops).1.seq = max ts.seq (maxIds (addedIds (runOps ts ops).2)) := by
  induction ops generalizing ts with
  | nil =>
    show ts.seq = max ts.seq (maxIds (addedIds []))
    have : maxIds (addedIds []) = 0 := rfl
    rw [this]
    omega
  | cons op ops ih =>
    rw [runOps_cons]
    show (runOps (applyOp ts op).1 ops).1.seq =
      max ts.seq (maxIds (addedIds ((applyOp ts op).2 :: (runOps (applyOp ts op).1 ops).2)))
    unfold addedIds
    rw [List.filterMap_cons]
    cases he : (applyOp ts op).2 with
    | added u =>
      dsimp only [addedId]
      rw [maxIds_cons]
      obtain ⟨hu1, hu2⟩ := applyOp_added_id he
      have hrec := ih (applyOp ts op).1 (by omega)
      rw [hrec, hu2]
      have : maxIds (addedIds (runOps (applyOp ts op).1 ops).2) =
          maxIds (List.filterMap addedId (runOps (applyOp ts op).1 ops).2) := rfl
      omega
    | addRejected e =>
      dsimp only [addedId]
      have hseq : (applyOp ts op).1.seq = ts.seq := by
        cases op with
        | add text now =>
          show (AddTodo ts text now).1.seq = ts.seq
          simp only [applyOp] at he
          unfold AddTodo at he ⊢
          cases hv : validateTodoText text with
          | some e2 => rfl
          | none =>
            exfalso
            rw [hv] at he
            simp at he
        | toggle i => exact ToggleTodo_seq ts i
        | delete i => exact DeleteTodo_seq ts i
      rw [ih (applyOp ts op).1 (by omega), hseq]
      rfl
    | toggled i =>
      dsimp only [addedId]
      have hseq : (applyOp ts op).1.seq = ts.seq := by
        cases op with
        | add text now =>
          exfalso
          simp only [applyOp] at he
          cases ha : (AddTodo ts text now).2 <;> rw [ha] at he <;> simp at he
        | toggle j => exact ToggleTodo_seq ts j
        | delete j => exact DeleteTodo_seq ts j
      rw [ih (applyOp ts op).1 (by omega), hseq]
      rfl
    | toggleFailed i e =>
      dsimp only [addedId]
      have hseq : (applyOp ts op).1.seq = ts.seq := by
        cases op with
        | add text now =>
          exfalso
          simp only [applyOp] at he
          cases ha : (AddTodo ts text now).2 <;> rw [ha] at he <;> simp at he
        | toggle j => exact ToggleTodo_seq ts j
        | delete j => exact DeleteTodo_seq ts j
      rw [ih (applyOp ts op).1 (by omega), hseq]
      rfl
    | deleted i =>
      dsimp only [addedId]
      have hseq : (applyOp ts op).1.seq = ts.seq := by
        cases op with
        | add text now =>
          exfalso
          simp only [applyOp] at he
          cases ha : (AddTodo ts text now).2 <;> rw [ha] at he <;> simp at he
        | toggle j => exact ToggleTodo_seq ts j
        | delete j => exact DeleteTodo_seq ts j
      rw [ih (applyOp ts op).1 (by omega), hseq]
      rfl
    | deleteFailed i e =>
      dsimp only [addedId]
      have hseq : (applyOp ts op).1.seq = ts.seq := by
        cases op with
        | add text now =>
          exfalso
          simp only [applyOp] at he
          cases ha : (AddTodo ts text now).2 <;> rw [ha] at he <;> simp at he
        | toggle j => exact ToggleTodo_seq ts j
        | delete j => exact DeleteTodo_seq ts j
      rw [ih (applyOp ts op).1 (by omega), hseq]
      rfl

/-- C4: a successful Add returns a Task carrying the next unused id —
the largest id ever issued along the trace plus one, so 1 when no task
was ever added — with `completed = false` and `created_at` equal to the
insertion timestamp; the new row is visible to subsequent List, Toggle
and Delete calls (it appears in `GetTodos` and both mutations on its id
succeed). -/
theorem addTodo_success_postcondition (ops : List Op) (text : List Char) (now : Int)
    (ts ts' : TodoStore) (evts : List Event) (todo : Todo)
    (hrun : runOps initStore ops = (ts, evts))
    (hadd : AddTodo ts text now = (ts', Except.ok todo)) :
    todo.id = maxIds (addedIds evts) + 1 ∧
    (addedIds evts = [] → todo.id = 1) ∧
    todo.completed = false ∧
    todo.createdAt = now ∧
    todo ∈ GetTodos ts' ∧
    (ToggleTodo ts' todo.id).2 = none ∧
    (DeleteTodo ts' todo.id).2 = none := by
  obtain ⟨hv, htodo, hts'⟩ := AddTodo_ok hadd
  have hinv : StoreInv ts := by
    have hq := StoreInv_runOps StoreInv_initStore ops
    rw [hrun] at hq
    exact hq
  have hseq : ts.seq = maxIds (addedIds evts) := by
    have hm := runOps_seq_eq_max initStore ops (le_refl 0)
    rw [hrun] at hm
    have hm' : ts.seq = max initStore.seq (maxIds (addedIds evts)) := hm
    have h0 : initStore.seq = 0 := rfl
    have hnn := maxIds_nonneg (addedIds evts)
    rw [h0] at hm'
    omega
  have hid : todo.id = ts.seq + 1 := by rw [htodo]
  have hmem' : todo ∈ ts'.rows := by
    rw [hts']
    exact List.mem_append_right _ (List.mem_singleton_self todo)
  have hpos : 0 < todo.id := by
    have h1 := hinv.1
    omega
  have hmc : matchCount ts'.rows todo.id ≠ 0 := matchCount_ne_zero.mpr ⟨todo, hmem', rfl⟩
  refine ⟨by omega, fun hnil => ?_, by rw [htodo], by rw [htodo], ?_, ?_, ?_⟩
  · have hz : maxIds (addedIds evts) = 0 := by rw [hnil]; rfl
    omega
  · show todo ∈ sortByCreatedDesc ts'.rows
    exact (sortByCreatedDesc_perm _).mem_iff.mpr hmem'
  · unfold ToggleTodo
    rw [if_neg (by omega), if_neg hmc]
  · unfold DeleteTodo
    rw [if_neg (by omega), if_neg hmc]

theorem addTodo_success_postcondition_witness :
    (⟨2, ['b'], false, 5⟩ : Todo).id =
      maxIds (addedIds [Event.added ⟨1, ['a'], false, 3⟩]) + 1 ∧
    (addedIds [Event.added ⟨1, ['a'], false, 3⟩] = [] →
      (⟨2, ['b'], false, 5⟩ : Todo).id = 1) ∧
    (⟨2, ['b'], false, 5⟩ : Todo).completed = false ∧
    (⟨2, ['b'], false, 5⟩ : Todo).createdAt = 5 ∧
    (⟨2, ['b'], false, 5⟩ : Todo) ∈
      GetTodos ⟨[⟨1, ['a'], false, 3⟩, ⟨2, ['b'], false, 5⟩], 2⟩ ∧
    (ToggleTodo ⟨[⟨1, ['a'], false, 3⟩, ⟨2, ['b'], false, 5⟩], 2⟩
      (⟨2, ['b'], false, 5⟩ : Todo).id).2 = none ∧
    (DeleteTodo ⟨[⟨1, ['a'], false, 3⟩, ⟨2, ['b'], false, 5⟩], 2⟩
      (⟨2, ['b'], false, 5⟩ : Todo).id).2 = none :=
  addTodo_success_postcondition [Op.add ['a'] 3] ['b'] 5
    ⟨[⟨1, ['a'], false, 3⟩], 1⟩ ⟨[⟨1, ['a'], false, 3⟩, ⟨2, ['b'], false, 5⟩], 2⟩
    [Event.added ⟨1, ['a'], false, 3⟩] ⟨2, ['b'], false, 5⟩ rfl rfl

/-- C10: every reachable store state holds only trimmed texts — for any
trace of operations from a fresh store, every stored row's text is a
fixed point of `TrimSpace` — and a successful Add stores and returns the
trimmed form of its input, which is then what `GetTodos` lists (the
returned row, carrying `TrimSpace` of the original input rather than the
raw input, is in the List output). -/
theorem stored_texts_trimmed (ops : List Op) (ts ts' : TodoStore) (text : List Char)
    (now : Int) (todo : Todo) :
    (∀ t ∈ (runOps initStore ops).1.rows, trimSpace t.text = t.text) ∧
    (AddTodo ts text now = (ts', Except.ok todo) →
      todo.text = trimSpace text ∧ todo ∈ GetTodos ts') := by
  constructor
  · intro t ht
    exact ((StoreInv_runOps StoreInv_initStore ops).2.2 t ht).2.2.1
  · intro hadd
    obtain ⟨hv, htodo, hts'⟩ := AddTodo_ok hadd
    refine ⟨by rw [htodo], ?_⟩
    show todo ∈ sortByCreatedDesc ts'.rows
    apply (sortByCreatedDesc_perm _).mem_iff.mpr
    rw [hts']
    exact List.mem_append_right _ (List.mem_singleton_self todo)

theorem stored_texts_trimmed_witness :
    trimSpace ['a'] = ['a'] ∧
    ((⟨1, ['b'], false, 0⟩ : Todo).text = trimSpace [' ', 'b'] ∧
      (⟨1, ['b'], false, 0⟩ : Todo) ∈ GetTodos ⟨[⟨1, ['b'], false, 0⟩], 1⟩) :=
  ⟨(stored_texts_trimmed [Op.add [' ', 'a'] 0] initStore ⟨[⟨1, ['b'], false, 0⟩], 1⟩
      [' ', 'b'] 0 ⟨1, ['b'], false, 0⟩).1 ⟨1, ['a'], false, 0⟩ (by decide),
   (stored_texts_trimmed [] initStore ⟨[⟨1, ['b'], false, 0⟩], 1⟩
      [' ', 'b'] 0 ⟨1, ['b'], false, 0⟩).2 rfl⟩
